import Mathlib

/-!
Verification of the freesas core geometry (model.py and average.py).

Atom coordinates are modelled as rationals (exact versions of the Python
floats); derived quantities that involve a square root or a cube root live
in `ℝ`.  Each Python function of the core is embedded as a Lean definition
that follows the source line by line; loops become folds or structural
recursions, the unbounded `while` loops of `make_grid` take an explicit
fuel argument, and Python runtime errors (ZeroDivisionError, IndexError)
are modelled with `Except`.
-/

set_option maxHeartbeats 1000000

/-- One dummy atom: a 3-D point with rational coordinates. -/
structure Pt where
  x : ℚ
  y : ℚ
  z : ℚ
deriving DecidableEq, Inhabited, Repr

/-- Minimum of a list, as computed by numpy's `min` on a non-empty array;
junk value `default` on the empty list (where numpy raises). -/
def listMin {α : Type} [Inhabited α] [Min α] : List α → α
  | [] => default
  | [a] => a
  | a :: b :: t => min a (listMin (b :: t))

/-- Maximum of a list, as computed by numpy's `max` on a non-empty array;
junk value `default` on the empty list (where numpy raises). -/
def listMax {α : Type} [Inhabited α] [Max α] : List α → α
  | [] => default
  | [a] => a
  | a :: b :: t => max a (listMax (b :: t))

/-- Squared Euclidean distance between two atoms (an entry of the matrix
`D` built in `_calc_fineness` / `d2` built in `dist`). -/
def sqDist (p q : Pt) : ℚ :=
  (p.x - q.x) ^ 2 + (p.y - q.y) ^ 2 + (p.z - q.z) ^ 2

/-- All entries of the full pairwise squared-distance matrix `D` of
`SASModel._calc_fineness`, as a flat list. -/
def allSqDists (atoms : List Pt) : List ℚ :=
  atoms.flatMap (fun p => atoms.map (fun q => sqDist p q))

/-- Embedding of `D.max()` in `SASModel._calc_fineness`. -/
def dMax (atoms : List Pt) : ℚ := listMax (allSqDists atoms)

/-- Entry `(i, j)` of the matrix `D.max()*numpy.eye(x.size) + D` of
`SASModel._calc_fineness`. -/
def entryD (atoms : List Pt) (i j : ℕ) : ℚ :=
  sqDist (atoms.getD i default) (atoms.getD j default) +
    (if i = j then dMax atoms else 0)

/-- Column `j` minimum of `D.max()*numpy.eye(x.size) + D`, i.e. one entry of
`.min(axis=0)` in `SASModel._calc_fineness`. -/
def colMin (atoms : List Pt) (j : ℕ) : ℚ :=
  listMin ((List.range atoms.length).map (fun i => entryD atoms i j))

/-- The quantity `d12` of `SASModel._calc_fineness`: the mean of the column
minima of `D.max()*numpy.eye(x.size) + D`. -/
def finenessSq (atoms : List Pt) : ℚ :=
  (((List.range atoms.length).map (colMin atoms)).sum) / (atoms.length : ℚ)

/-- Embedding of `SASModel._calc_fineness`: `numpy.sqrt(d12)`. -/
noncomputable def fineness (atoms : List Pt) : ℝ :=
  Real.sqrt ((finenessSq atoms : ℚ) : ℝ)

/-- Minimum squared distance from atom `j` to the other atoms of the same
cloud (other positions of the list, so coincident duplicates count as other
atoms at distance zero).  This follows the words of the specification of
fineness, to be compared with the `D.max()*eye + D` computation of the
source. -/
def minSqDistToOthers (atoms : List Pt) (j : ℕ) : ℚ :=
  listMin ((((List.range atoms.length).filter (fun i => i ≠ j))).map
    (fun i => sqDist (atoms.getD i default) (atoms.getD j default)))

/-- Mean over all atoms of the minimum squared distance to the other atoms:
the radicand of the fineness as the specification words it. -/
def finenessSqSpec (atoms : List Pt) : ℚ :=
  (((List.range atoms.length).map (minSqDistToOthers atoms)).sum) /
    (atoms.length : ℚ)

/-- Sum over the atoms of the first cloud of the minimum squared distance
to an atom of the second cloud: `d2.min(axis=1).sum()` in `SASModel.dist`. -/
def rowMinSum (molA molB : List Pt) : ℚ :=
  (molA.map (fun p => listMin (molB.map (fun q => sqDist p q)))).sum

/-- Sum over the atoms of the second cloud of the minimum squared distance
to an atom of the first cloud: `d2.min(axis=0).sum()` in `SASModel.dist`. -/
def colMinSum (molA molB : List Pt) : ℚ :=
  (molB.map (fun q => listMin (molA.map (fun p => sqDist p q)))).sum

/-- Embedding of `SASModel.dist`:
`(0.5*((1/(N_A*f_B*f_B))*d2.min(axis=1).sum() +
(1/(N_B*f_A*f_A))*d2.min(axis=0).sum()))**0.5`, where Python's `x**0.5` is
the real square root (the radicand is nonnegative). -/
noncomputable def sasDist (molA molB : List Pt) : ℝ :=
  Real.sqrt (0.5 *
    ((1 / ((molA.length : ℝ) * fineness molB * fineness molB)) *
        ((rowMinSum molA molB : ℚ) : ℝ) +
     (1 / ((molB.length : ℝ) * fineness molA * fineness molA)) *
        ((colMinSum molA molB : ℚ) : ℝ)))

/-- Bounding box of `Grid.spatial_extent`: the 6-list
`[xmax, ymax, zmax, xmin, ymin, zmin]`. -/
structure Extent where
  xmax : ℝ
  ymax : ℝ
  zmax : ℝ
  xmin : ℝ
  ymin : ℝ
  zmin : ℝ

/-- Mean fineness of the input models:
`sum(models_fineness) / len(models_fineness)` in `Grid.spatial_extent`. -/
noncomputable def meanFineness (clouds : List (List Pt)) : ℝ :=
  ((clouds.map fineness).sum) / (clouds.length : ℝ)

/-- Embedding of `Grid.spatial_extent`: per-axis minima and maxima over the
concatenated atoms of all input models, inflated by the mean fineness on
every side (file reading abstracted: each input file stands for its cloud). -/
noncomputable def spatialExtent (clouds : List (List Pt)) : Extent :=
  { xmax := ((listMax ((clouds.flatten).map Pt.x) : ℚ) : ℝ) + meanFineness clouds
    ymax := ((listMax ((clouds.flatten).map Pt.y) : ℚ) : ℝ) + meanFineness clouds
    zmax := ((listMax ((clouds.flatten).map Pt.z) : ℚ) : ℝ) + meanFineness clouds
    xmin := ((listMin ((clouds.flatten).map Pt.x) : ℚ) : ℝ) - meanFineness clouds
    ymin := ((listMin ((clouds.flatten).map Pt.y) : ℚ) : ℝ) - meanFineness clouds
    zmin := ((listMin ((clouds.flatten).map Pt.z) : ℚ) : ℝ) - meanFineness clouds }

/-- Volume `dx * dy * dz` of an extent box, as in `Grid.calc_radius`. -/
def volume (e : Extent) : ℝ :=
  (e.xmax - e.xmin) * (e.ymax - e.ymin) * (e.zmax - e.zmin)

/-- Embedding of `Grid.calc_radius`: with the face-centered-cubic density
`pi/(3*sqrt(2))`, `radius = ((3/(4*pi)) * density * volume / nbknots)**(1/3)`,
with `nbknots` defaulting to 5000. -/
noncomputable def calcRadius (e : Extent) (nbknots : Option ℕ) : ℝ :=
  let n : ℕ := nbknots.getD 5000
  let density : ℝ := Real.pi / (3 * Real.sqrt 2)
  ((3 / (4 * Real.pi)) * density * volume e / (n : ℝ)) ^ ((1 : ℝ) / 3)

/-- One lattice knot of `Grid.make_grid`: three coordinates plus the
trailing scalar field initialised to 0 (reserved for occupancy). -/
structure Knot where
  x : ℝ
  y : ℝ
  z : ℝ
  w : ℝ

/-- Embedding of the `while (lo + t) <= hi: append(t); t += a` ladders of
`Grid.make_grid`, with explicit fuel for the unbounded loop. -/
noncomputable def genOffsets (lo hi a : ℝ) : ℕ → ℝ → List ℝ
  | 0, _ => []
  | fuel + 1, t => if lo + t ≤ hi then t :: genOffsets lo hi a fuel (t + a) else []

/-- Every second element of a list, starting from the first: the `::2`
stride of a Python slice. -/
def everySecond {α : Type} : List α → List α
  | [] => []
  | [a] => [a]
  | a :: _ :: t => a :: everySecond t

/-- Python slice `l[b:-1:2]` used on `ylist` in `Grid.make_grid`: drop the
last element, start at index `b`, stride 2. -/
def sliceYs (l : List ℝ) (b : ℕ) : List ℝ := everySecond ((l.dropLast).drop b)

/-- Embedding of `Grid.make_grid`: builds the three coordinate ladders from
the extent with spacing `sqrt(2)*radius`, then emits the face-centered-cubic
staggered knots; layer parity on the z index and column parity on the x
index select the y sub-slice. -/
noncomputable def makeGridKnots (e : Extent) (radius : ℝ) (fuel : ℕ) : List Knot :=
  let a := Real.sqrt 2 * radius
  let zlist := genOffsets e.zmin e.zmax a fuel 0
  let ylist := genOffsets e.ymin e.ymax a fuel 0
  let xlist := genOffsets e.xmin e.xmax a fuel 0
  (zlist.enum).flatMap (fun iz =>
    (xlist.enum).flatMap (fun jx =>
      let ys := if iz.1 % 2 = 0 then
          (if jx.1 % 2 = 0 then sliceYs ylist 0 else sliceYs ylist 1)
        else
          (if jx.1 % 2 = 0 then sliceYs ylist 1 else sliceYs ylist 0)
      ys.map (fun y => ⟨e.xmin + jx.2, e.ymin + y, e.zmin + iz.2, 0⟩)))

/-- Squared distance from an atom to a grid point:
`dx*dx + dy*dy + dz*dz` in `AverModels.calc_occupancy`. -/
def knotSqDist (p : Pt) (g : ℝ × ℝ × ℝ) : ℝ :=
  ((p.x : ℝ) - g.1) * ((p.x : ℝ) - g.1) +
    ((p.y : ℝ) - g.2.1) * ((p.y : ℝ) - g.2.1) +
    ((p.z : ℝ) - g.2.2) * ((p.z : ℝ) - g.2.2)

/-- Inner loop of `AverModels.calc_occupancy` over the atoms of one model:
`add = max(1 - dist/(f/2), 0)`; when `add` is nonzero the contribution
count is incremented and `add` is accumulated into the occupancy. -/
noncomputable def occAtoms (f : ℝ) (g : ℝ × ℝ × ℝ) : List Pt → ℝ × ℕ → ℝ × ℕ
  | [], acc => acc
  | p :: rest, acc =>
      let add := max (1 - knotSqDist p g / (f / 2)) 0
      occAtoms f g rest (if add ≠ 0 then (acc.1 + add, acc.2 + 1) else acc)

/-- Outer loop of `AverModels.calc_occupancy` over the models; `f` is the
fineness of the current model. -/
noncomputable def occModels (g : ℝ × ℝ × ℝ) : List (List Pt) → ℝ × ℕ → ℝ × ℕ
  | [], acc => acc
  | m :: rest, acc => occModels g rest (occAtoms (fineness m) g m acc)

/-- Embedding of `AverModels.calc_occupancy`, returning the pair
`(occupancy, contribution count)` for one grid point. -/
noncomputable def calcOccupancy (models : List (List Pt)) (g : ℝ × ℝ × ℝ) : ℝ × ℕ :=
  occModels g models (0, 0)

/-- Maximum model fineness over a collection of models. -/
noncomputable def maxFineness (models : List (List Pt)) : ℝ :=
  listMax (models.map fineness)

/-- Embedding of `SASModel.centroid`.  The method body is
`self.com = self.centroid(); return self.com`: it calls itself
unconditionally with no base case, so the fuel argument counts the nested
calls and `none` models the Python RecursionError reached for every fuel. -/
def centroidRun : ℕ → List Pt → Option Pt
  | 0, _ => none
  | fuel + 1, atoms => centroidRun fuel atoms

/-- Python runtime errors reached by the embedded code. -/
inductive PyErr
  | zeroDivision
  | indexFault
deriving DecidableEq, Repr

/-- Embedding of `Grid.spatial_extent` with its Python error behaviour:
`mean_fineness = sum(models_fineness) / len(models_fineness)` raises
ZeroDivisionError when the input list is empty, before any array access. -/
noncomputable def spatialExtentE (clouds : List (List Pt)) :
    Except PyErr Extent :=
  if clouds.length = 0 then Except.error PyErr.zeroDivision
  else Except.ok (spatialExtent clouds)

/-- Embedding of `AverModels.read_files` (file reading abstracted: each
input file stands for its cloud of atoms).  The reference model is read
first via `inputfiles[ref]`, which raises IndexError when the input list is
empty; the remaining models are appended in input order, skipping `ref`. -/
def readFilesE (inputs : List (List Pt)) (reference : Option ℕ) :
    Except PyErr (List (List Pt)) :=
  let ref := reference.getD 0
  match inputs[ref]? with
  | none => Except.error PyErr.indexFault
  | some first =>
      Except.ok (first ::
        (((List.range inputs.length).filter (fun i => i ≠ ref)).map
          (fun i => inputs.getD i [])))

theorem listMin_le {α : Type} [Inhabited α] [LinearOrder α] {l : List α} {a : α}
    (h : a ∈ l) : listMin l ≤ a := by
  induction l with
  | nil => simp at h
  | cons b t ih =>
    cases t with
    | nil =>
      rw [List.mem_singleton] at h
      simp [listMin, h]
    | cons c t2 =>
      rcases List.mem_cons.mp h with rfl | h2
      · exact min_le_left _ _
      · exact le_trans (min_le_right _ _) (ih h2)

theorem le_listMax {α : Type} [Inhabited α] [LinearOrder α] {l : List α} {a : α}
    (h : a ∈ l) : a ≤ listMax l := by
  induction l with
  | nil => simp at h
  | cons b t ih =>
    cases t with
    | nil =>
      rw [List.mem_singleton] at h
      simp [listMax, h]
    | cons c t2 =>
      rcases List.mem_cons.mp h with rfl | h2
      · exact le_max_left _ _
      · exact le_trans (ih h2) (le_max_right _ _)

theorem listMin_mem {α : Type} [Inhabited α] [LinearOrder α] :
    ∀ {l : List α}, l ≠ [] → listMin l ∈ l := by
  intro l
  induction l with
  | nil => intro h; exact absurd rfl h
  | cons b t ih =>
    intro _
    cases t with
    | nil => simp [listMin]
    | cons c t2 =>
      show min b (listMin (c :: t2)) ∈ b :: c :: t2
      rcases min_choice b (listMin (c :: t2)) with h | h
      · rw [h]; exact List.mem_cons_self _ _
      · rw [h]; exact List.mem_cons_of_mem _ (ih (by simp))

theorem le_listMin {α : Type} [Inhabited α] [LinearOrder α] {l : List α} {c : α}
    (hne : l ≠ []) (hall : ∀ a ∈ l, c ≤ a) : c ≤ listMin l :=
  hall _ (listMin_mem hne)

theorem sqDist_self (p : Pt) : sqDist p p = 0 := by
  simp [sqDist]

theorem sqDist_nonneg (p q : Pt) : 0 ≤ sqDist p q := by
  have hx := sq_nonneg (p.x - q.x)
  have hy := sq_nonneg (p.y - q.y)
  have hz := sq_nonneg (p.z - q.z)
  unfold sqDist
  linarith

theorem sqDist_comm (p q : Pt) : sqDist p q = sqDist q p := by
  unfold sqDist
  ring

theorem getD_mem {α : Type} [Inhabited α] :
    ∀ {l : List α} {i : ℕ}, i < l.length → l.getD i default ∈ l
  | a :: t, 0, _ => List.mem_cons_self a t
  | a :: t, i + 1, h =>
      List.mem_cons_of_mem a (getD_mem (by simpa using h))

theorem sqDist_mem_allSqDists {atoms : List Pt} {p q : Pt}
    (hp : p ∈ atoms) (hq : q ∈ atoms) : sqDist p q ∈ allSqDists atoms := by
  unfold allSqDists
  exact List.mem_flatMap.mpr ⟨p, hp, List.mem_map.mpr ⟨q, hq, rfl⟩⟩

theorem sqDist_le_dMax {atoms : List Pt} {i j : ℕ}
    (hi : i < atoms.length) (hj : j < atoms.length) :
    sqDist (atoms.getD i default) (atoms.getD j default) ≤ dMax atoms :=
  le_listMax (sqDist_mem_allSqDists (getD_mem hi) (getD_mem hj))

/-- The diagonal substitution of `_calc_fineness` recovers the minimum over
the other atoms: for a cloud with at least two atoms, the column minimum of
`D.max()*eye + D` is the minimum squared distance to the other positions. -/
theorem colMin_eq_minSqDistToOthers {atoms : List Pt} {j : ℕ}
    (hn : 2 ≤ atoms.length) (hj : j < atoms.length) :
    colMin atoms j = minSqDistToOthers atoms j := by
  obtain ⟨i0, hi0n, hi0j⟩ : ∃ i0, i0 < atoms.length ∧ i0 ≠ j := by
    rcases Nat.eq_zero_or_pos j with hj0 | hjpos
    · exact ⟨1, by omega, by omega⟩
    · exact ⟨0, by omega, by omega⟩
  have hi0mem : i0 ∈ (List.range atoms.length).filter (fun i => i ≠ j) :=
    List.mem_filter.mpr ⟨List.mem_range.mpr hi0n, by simpa using hi0j⟩
  have hSne :
      (((List.range atoms.length).filter (fun i => i ≠ j)).map
        (fun i => sqDist (atoms.getD i default) (atoms.getD j default))) ≠ [] :=
    List.ne_nil_of_mem (List.mem_map.mpr ⟨i0, hi0mem, rfl⟩)
  have hLne :
      ((List.range atoms.length).map (fun i => entryD atoms i j)) ≠ [] :=
    List.ne_nil_of_mem
      (List.mem_map.mpr ⟨i0, List.mem_range.mpr hi0n, rfl⟩)
  unfold colMin minSqDistToOthers
  apply le_antisymm
  · -- the column minimum is at most the minimum over the other atoms
    obtain ⟨i, hif, hival⟩ := List.mem_map.mp (listMin_mem hSne)
    have hine : i ≠ j := by simpa using (List.mem_filter.mp hif).2
    have hir : i ∈ List.range atoms.length := (List.mem_filter.mp hif).1
    have hentry : entryD atoms i j
        = sqDist (atoms.getD i default) (atoms.getD j default) := by
      unfold entryD
      rw [if_neg hine, add_zero]
    calc listMin ((List.range atoms.length).map (fun i => entryD atoms i j))
        ≤ entryD atoms i j := listMin_le (List.mem_map.mpr ⟨i, hir, rfl⟩)
      _ = _ := by rw [hentry, hival]
  · -- the minimum over the other atoms is at most the column minimum
    obtain ⟨i, hir, hival⟩ := List.mem_map.mp (listMin_mem hLne)
    have hin : i < atoms.length := List.mem_range.mp hir
    by_cases hij : i = j
    · -- the column minimum is the substituted diagonal value `D.max()`
      have hdiag : entryD atoms i j = dMax atoms := by
        unfold entryD
        rw [if_pos hij, hij, sqDist_self, zero_add]
      have h1 : listMin
          ((((List.range atoms.length).filter (fun i => i ≠ j))).map
            (fun i => sqDist (atoms.getD i default) (atoms.getD j default)))
          ≤ sqDist (atoms.getD i0 default) (atoms.getD j default) :=
        listMin_le (List.mem_map.mpr ⟨i0, hi0mem, rfl⟩)
      have h2 : sqDist (atoms.getD i0 default) (atoms.getD j default)
          ≤ dMax atoms := sqDist_le_dMax hi0n hj
      rw [← hival, hdiag]
      exact le_trans h1 h2
    · have hentry : entryD atoms i j
          = sqDist (atoms.getD i default) (atoms.getD j default) := by
        unfold entryD
        rw [if_neg hij, add_zero]
      have hmem : i ∈ (List.range atoms.length).filter (fun i => i ≠ j) :=
        List.mem_filter.mpr ⟨hir, by simpa using hij⟩
      have h1 : listMin
          ((((List.range atoms.length).filter (fun i => i ≠ j))).map
            (fun i => sqDist (atoms.getD i default) (atoms.getD j default)))
          ≤ sqDist (atoms.getD i default) (atoms.getD j default) :=
        listMin_le (List.mem_map.mpr ⟨i, hmem, rfl⟩)
      rw [← hival, hentry]
      exact h1

theorem finenessSq_eq_spec {atoms : List Pt} (h2 : 2 ≤ atoms.length) :
    finenessSq atoms = finenessSqSpec atoms := by
  unfold finenessSq finenessSqSpec
  have : (List.range atoms.length).map (colMin atoms)
      = (List.range atoms.length).map (minSqDistToOthers atoms) := by
    apply List.map_congr_left
    intro j hj
    exact colMin_eq_minSqDistToOthers h2 (List.mem_range.mp hj)
  rw [this]

/-- C1: for every point cloud with at least 2 atoms, the fineness computed
by `_calc_fineness` (per-column minima of `D.max()*eye + D`, averaged, then
square root) equals the square root of the mean over all atoms of the
minimum squared Euclidean distance to the other atoms of the cloud. -/
theorem c1_fineness_eq_mean_nearest (atoms : List Pt) (h2 : 2 ≤ atoms.length) :
    fineness atoms = Real.sqrt ((finenessSqSpec atoms : ℚ) : ℝ) := by
  unfold fineness
  rw [finenessSq_eq_spec h2]

/-- Witness for C1 on the concrete two-atom cloud (0,0,0), (1,0,0). -/
theorem c1_witness :
    2 ≤ ([⟨0,0,0⟩, ⟨1,0,0⟩] : List Pt).length ∧
      fineness [⟨0,0,0⟩, ⟨1,0,0⟩]
        = Real.sqrt ((finenessSqSpec [⟨0,0,0⟩, ⟨1,0,0⟩] : ℚ) : ℝ) :=
  ⟨by decide, c1_fineness_eq_mean_nearest _ (by decide)⟩

theorem exists_other_index {n j : ℕ} (hn : 2 ≤ n) : ∃ i, i < n ∧ i ≠ j := by
  rcases Nat.eq_zero_or_pos j with h | h
  · exact ⟨1, by omega, by omega⟩
  · exact ⟨0, by omega, by omega⟩

theorem dMax_nonneg {atoms : List Pt} (hne : atoms ≠ []) : 0 ≤ dMax atoms := by
  have hlen : 0 < atoms.length := List.length_pos.mpr hne
  have hmem : sqDist (atoms.getD 0 default) (atoms.getD 0 default)
      ∈ allSqDists atoms :=
    sqDist_mem_allSqDists (getD_mem hlen) (getD_mem hlen)
  have h := le_listMax hmem
  rw [sqDist_self] at h
  exact h

theorem entryD_nonneg {atoms : List Pt} (hne : atoms ≠ []) (i j : ℕ) :
    0 ≤ entryD atoms i j := by
  unfold entryD
  have h1 := sqDist_nonneg (atoms.getD i default) (atoms.getD j default)
  by_cases hij : i = j
  · rw [if_pos hij]
    have := dMax_nonneg hne
    linarith
  · rw [if_neg hij]
    linarith

theorem colMin_nonneg {atoms : List Pt} (hne : atoms ≠ []) (j : ℕ) :
    0 ≤ colMin atoms j := by
  have hlen : 0 < atoms.length := List.length_pos.mpr hne
  unfold colMin
  apply le_listMin
  · apply List.ne_nil_of_mem (a := entryD atoms 0 j)
    exact List.mem_map.mpr ⟨0, List.mem_range.mpr hlen, rfl⟩
  · intro a ha
    obtain ⟨i, _, rfl⟩ := List.mem_map.mp ha
    exact entryD_nonneg hne i j

theorem sum_pos_of_mem {l : List ℚ} {a : ℚ} (ha : a ∈ l) (hpos : 0 < a)
    (hall : ∀ x ∈ l, 0 ≤ x) : 0 < l.sum := by
  induction l with
  | nil => simp at ha
  | cons b t ih =>
    rw [List.sum_cons]
    rcases List.mem_cons.mp ha with rfl | h2
    · have ht : (0 : ℚ) ≤ t.sum :=
        List.sum_nonneg (fun x hx => hall x (List.mem_cons_of_mem _ hx))
      linarith
    · have hb : (0 : ℚ) ≤ b := hall b (List.mem_cons_self _ _)
      have ht := ih h2 (fun x hx => hall x (List.mem_cons_of_mem _ hx))
      linarith

/-- C5 counterexample: the cloud (0,0,0), (0,0,0), (1,0,0), (1,0,0) contains
two distinct points, yet `_calc_fineness` yields fineness zero, because
every atom coincides with another atom so every per-row nearest-neighbour
squared distance is zero. -/
theorem c5_counterexample :
    (∃ p ∈ ([⟨0,0,0⟩, ⟨0,0,0⟩, ⟨1,0,0⟩, ⟨1,0,0⟩] : List Pt),
      ∃ q ∈ ([⟨0,0,0⟩, ⟨0,0,0⟩, ⟨1,0,0⟩, ⟨1,0,0⟩] : List Pt), p ≠ q) ∧
    fineness [⟨0,0,0⟩, ⟨0,0,0⟩, ⟨1,0,0⟩, ⟨1,0,0⟩] = 0 := by
  constructor
  · refine ⟨⟨0,0,0⟩, by simp, ⟨1,0,0⟩, by simp, ?_⟩
    intro h
    have := congrArg Pt.x h
    norm_num at this
  · have h : finenessSq [⟨0,0,0⟩, ⟨0,0,0⟩, ⟨1,0,0⟩, ⟨1,0,0⟩] = 0 := by
      norm_num [finenessSq, colMin, entryD, dMax, allSqDists, sqDist,
        listMin, listMax, List.range_succ]
    unfold fineness
    rw [h]
    simp

/-- C5 amended: for every point cloud with at least 2 atoms that contains
at least one atom at strictly positive squared distance from every other
atom (in particular every cloud of pairwise distinct atoms), the fineness
is strictly positive.  The original claim fails when every distinct point
occurs at least twice, as in the counterexample. -/
theorem c5_fineness_pos (atoms : List Pt) (h2 : 2 ≤ atoms.length)
    (hsep : ∃ j, j < atoms.length ∧ ∀ i, i < atoms.length → i ≠ j →
      0 < sqDist (atoms.getD i default) (atoms.getD j default)) :
    0 < fineness atoms := by
  obtain ⟨j, hj, hpos⟩ := hsep
  have hne : atoms ≠ [] := by
    intro h
    rw [h] at h2
    simp at h2
  have hcol : 0 < colMin atoms j := by
    rw [colMin_eq_minSqDistToOthers h2 hj]
    unfold minSqDistToOthers
    obtain ⟨i0, hi0n, hi0j⟩ := exists_other_index (j := j) h2
    have hSne :
        (((List.range atoms.length).filter (fun i => i ≠ j)).map
          (fun i => sqDist (atoms.getD i default) (atoms.getD j default))) ≠ [] := by
      apply List.ne_nil_of_mem
        (a := sqDist (atoms.getD i0 default) (atoms.getD j default))
      exact List.mem_map.mpr
        ⟨i0, List.mem_filter.mpr ⟨List.mem_range.mpr hi0n, by simpa using hi0j⟩, rfl⟩
    obtain ⟨i, hif, hival⟩ := List.mem_map.mp (listMin_mem hSne)
    have hin : i < atoms.length := List.mem_range.mp (List.mem_filter.mp hif).1
    have hinj : i ≠ j := by simpa using (List.mem_filter.mp hif).2
    rw [← hival]
    exact hpos i hin hinj
  have hsum : 0 < ((List.range atoms.length).map (colMin atoms)).sum := by
    apply sum_pos_of_mem (a := colMin atoms j)
    · exact List.mem_map.mpr ⟨j, List.mem_range.mpr hj, rfl⟩
    · exact hcol
    · intro x hx
      obtain ⟨i, _, rfl⟩ := List.mem_map.mp hx
      exact colMin_nonneg hne i
  have hq : 0 < finenessSq atoms := by
    unfold finenessSq
    apply div_pos hsum
    exact_mod_cast List.length_pos.mpr hne
  unfold fineness
  rw [Real.sqrt_pos]
  exact_mod_cast hq

/-- Witness for the amended C5 on the cloud (0,0,0), (1,0,0). -/
theorem c5_witness :
    2 ≤ ([⟨0,0,0⟩, ⟨1,0,0⟩] : List Pt).length ∧
    (∃ j, j < ([⟨0,0,0⟩, ⟨1,0,0⟩] : List Pt).length ∧
      ∀ i, i < ([⟨0,0,0⟩, ⟨1,0,0⟩] : List Pt).length → i ≠ j →
        0 < sqDist (([⟨0,0,0⟩, ⟨1,0,0⟩] : List Pt).getD i default)
          (([⟨0,0,0⟩, ⟨1,0,0⟩] : List Pt).getD j default)) ∧
    0 < fineness [⟨0,0,0⟩, ⟨1,0,0⟩] := by
  have hsep : ∃ j, j < ([⟨0,0,0⟩, ⟨1,0,0⟩] : List Pt).length ∧
      ∀ i, i < ([⟨0,0,0⟩, ⟨1,0,0⟩] : List Pt).length → i ≠ j →
        0 < sqDist (([⟨0,0,0⟩, ⟨1,0,0⟩] : List Pt).getD i default)
          (([⟨0,0,0⟩, ⟨1,0,0⟩] : List Pt).getD j default) := by
    refine ⟨0, by norm_num, ?_⟩
    intro i hi hne
    have hi2 : i < 2 := by simpa using hi
    interval_cases i
    · exact absurd rfl hne
    · norm_num [sqDist]
  exact ⟨by norm_num, hsep, c5_fineness_pos _ (by norm_num) hsep⟩

/-- C4 (code bug): `SASModel.centroid` never terminates — its body is
`self.com = self.centroid()`, an unconditional call to itself — so on the
non-empty cloud [(0,0,0)] it exhausts any recursion fuel (Python
RecursionError) instead of returning the arithmetic mean of the atoms. -/
theorem c4_centroid_diverges : ∀ fuel : ℕ, centroidRun fuel [⟨0,0,0⟩] = none := by
  intro fuel
  induction fuel with
  | zero => rfl
  | succ n ih => exact ih

/-- C9 (code bug): on an empty input list `Grid.spatial_extent` raises
ZeroDivisionError from `sum([]) / len([])` (not a descriptive empty-input
error), `AverModels.read_files` raises exactly the out-of-range IndexError
the claim excludes (`inputfiles[0]` on the empty list), and the occupancy
accumulator silently returns (0, 0) instead of failing. -/
theorem c9_empty_input_behaviour :
    spatialExtentE [] = Except.error PyErr.zeroDivision ∧
    readFilesE [] none = Except.error PyErr.indexFault ∧
    calcOccupancy [] (0, 0, 0) = (0, 0) :=
  ⟨rfl, rfl, rfl⟩

theorem fineness_mul_self {atoms : List Pt} (h : 0 < fineness atoms) :
    fineness atoms * fineness atoms = ((finenessSq atoms : ℚ) : ℝ) := by
  have hq : (0 : ℝ) ≤ ((finenessSq atoms : ℚ) : ℝ) := by
    unfold fineness at h
    exact le_of_lt (Real.sqrt_pos.mp h)
  unfold fineness
  exact Real.mul_self_sqrt hq

/-- C2: for clouds A and B with positive fineness, `SASModel.dist` equals
the square root of half the sum of two terms — the sum over A's atoms of
the minimum squared distance to B divided by `N_A * fineness(B)^2`, plus
the sum over B's atoms of the minimum squared distance to A divided by
`N_B * fineness(A)^2` — and this value is nonnegative. -/
theorem c2_dist_formula (molA molB : List Pt)
    (hA : 0 < fineness molA) (hB : 0 < fineness molB) :
    sasDist molA molB =
      Real.sqrt ((1 / 2) *
        (((rowMinSum molA molB : ℚ) : ℝ) /
            ((molA.length : ℝ) * ((finenessSq molB : ℚ) : ℝ)) +
         ((colMinSum molA molB : ℚ) : ℝ) /
            ((molB.length : ℝ) * ((finenessSq molA : ℚ) : ℝ)))) ∧
    0 ≤ sasDist molA molB := by
  constructor
  · unfold sasDist
    rw [mul_assoc (molA.length : ℝ), fineness_mul_self hB,
      mul_assoc (molB.length : ℝ), fineness_mul_self hA]
    congr 1
    ring
  · exact Real.sqrt_nonneg _

/-- Witness for C2 on the clouds (0,0,0),(1,0,0) and (0,0,1),(1,0,1). -/
theorem c2_witness :
    0 < fineness [⟨0,0,0⟩, ⟨1,0,0⟩] ∧ 0 < fineness [⟨0,0,1⟩, ⟨1,0,1⟩] ∧
    0 ≤ sasDist [⟨0,0,0⟩, ⟨1,0,0⟩] [⟨0,0,1⟩, ⟨1,0,1⟩] := by
  have hA : 0 < fineness [⟨0,0,0⟩, ⟨1,0,0⟩] := by
    unfold fineness
    apply Real.sqrt_pos.mpr
    have h : finenessSq [⟨0,0,0⟩, ⟨1,0,0⟩] = 1 := by
      norm_num [finenessSq, colMin, entryD, dMax, allSqDists, sqDist,
        listMin, listMax, List.range_succ]
    rw [h]
    norm_num
  have hB : 0 < fineness [⟨0,0,1⟩, ⟨1,0,1⟩] := by
    unfold fineness
    apply Real.sqrt_pos.mpr
    have h : finenessSq [⟨0,0,1⟩, ⟨1,0,1⟩] = 1 := by
      norm_num [finenessSq, colMin, entryD, dMax, allSqDists, sqDist,
        listMin, listMax, List.range_succ]
    rw [h]
    norm_num
  exact ⟨hA, hB, (c2_dist_formula _ _ hA hB).2⟩

theorem colMinSum_eq_rowMinSum_swap (molA molB : List Pt) :
    colMinSum molA molB = rowMinSum molB molA := by
  unfold rowMinSum colMinSum
  apply congrArg List.sum
  apply List.map_congr_left
  intro q _
  apply congrArg listMin
  apply List.map_congr_left
  intro p _
  exact sqDist_comm p q

/-- C10: the pairwise distance of `SASModel.dist` is symmetric — for clouds
A and B with positive fineness, `dist(A, B) = dist(B, A)`, the two
direction-specific normalized terms exchanging roles when the arguments are
swapped. -/
theorem c10_dist_symm (molA molB : List Pt)
    (hA : 0 < fineness molA) (hB : 0 < fineness molB) :
    sasDist molA molB = sasDist molB molA := by
  unfold sasDist
  rw [colMinSum_eq_rowMinSum_swap molA molB, colMinSum_eq_rowMinSum_swap molB molA]
  congr 1
  ring

/-- Witness for C10 on the clouds (0,0,0),(1,0,0) and (0,0,1),(1,0,1). -/
theorem c10_witness :
    0 < fineness [⟨0,0,0⟩, ⟨1,0,0⟩] ∧ 0 < fineness [⟨0,0,1⟩, ⟨1,0,1⟩] ∧
    sasDist [⟨0,0,0⟩, ⟨1,0,0⟩] [⟨0,0,1⟩, ⟨1,0,1⟩]
      = sasDist [⟨0,0,1⟩, ⟨1,0,1⟩] [⟨0,0,0⟩, ⟨1,0,0⟩] := by
  have hA : 0 < fineness [⟨0,0,0⟩, ⟨1,0,0⟩] := by
    unfold fineness
    apply Real.sqrt_pos.mpr
    have h : finenessSq [⟨0,0,0⟩, ⟨1,0,0⟩] = 1 := by
      norm_num [finenessSq, colMin, entryD, dMax, allSqDists, sqDist,
        listMin, listMax, List.range_succ]
    rw [h]
    norm_num
  have hB : 0 < fineness [⟨0,0,1⟩, ⟨1,0,1⟩] := by
    unfold fineness
    apply Real.sqrt_pos.mpr
    have h : finenessSq [⟨0,0,1⟩, ⟨1,0,1⟩] = 1 := by
      norm_num [finenessSq, colMin, entryD, dMax, allSqDists, sqDist,
        listMin, listMax, List.range_succ]
    rw [h]
    norm_num
  exact ⟨hA, hB, c10_dist_symm _ _ hA hB⟩

theorem meanFineness_nonneg (clouds : List (List Pt)) :
    0 ≤ meanFineness clouds := by
  unfold meanFineness
  apply div_nonneg
  · apply List.sum_nonneg
    intro x hx
    obtain ⟨m, _, rfl⟩ := List.mem_map.mp hx
    unfold fineness
    exact Real.sqrt_nonneg _
  · exact Nat.cast_nonneg _

/-- C6: the box returned by `Grid.spatial_extent` contains every atom of
every input cloud on every axis — each box maximum is at least the raw
per-axis maximum over all atoms and each box minimum is at most the raw
per-axis minimum — because the mean-fineness inflation only moves the
bounds outward. -/
theorem c6_extent_contains (clouds : List (List Pt)) (c : List Pt) (p : Pt)
    (hne : clouds ≠ []) (hc : c ∈ clouds) (hp : p ∈ c) :
    (((listMax ((clouds.flatten).map Pt.x) : ℚ) : ℝ) ≤ (spatialExtent clouds).xmax ∧
     ((listMax ((clouds.flatten).map Pt.y) : ℚ) : ℝ) ≤ (spatialExtent clouds).ymax ∧
     ((listMax ((clouds.flatten).map Pt.z) : ℚ) : ℝ) ≤ (spatialExtent clouds).zmax ∧
     (spatialExtent clouds).xmin ≤ ((listMin ((clouds.flatten).map Pt.x) : ℚ) : ℝ) ∧
     (spatialExtent clouds).ymin ≤ ((listMin ((clouds.flatten).map Pt.y) : ℚ) : ℝ) ∧
     (spatialExtent clouds).zmin ≤ ((listMin ((clouds.flatten).map Pt.z) : ℚ) : ℝ)) ∧
    ((spatialExtent clouds).xmin ≤ (p.x : ℝ) ∧ (p.x : ℝ) ≤ (spatialExtent clouds).xmax ∧
     (spatialExtent clouds).ymin ≤ (p.y : ℝ) ∧ (p.y : ℝ) ≤ (spatialExtent clouds).ymax ∧
     (spatialExtent clouds).zmin ≤ (p.z : ℝ) ∧ (p.z : ℝ) ≤ (spatialExtent clouds).zmax) := by
  have hm := meanFineness_nonneg clouds
  have hflat : p ∈ clouds.flatten := List.mem_flatten.mpr ⟨c, hc, hp⟩
  have hx1 : ((p.x : ℚ) : ℝ) ≤ ((listMax ((clouds.flatten).map Pt.x) : ℚ) : ℝ) :=
    Rat.cast_le.mpr (le_listMax (List.mem_map.mpr ⟨p, hflat, rfl⟩))
  have hy1 : ((p.y : ℚ) : ℝ) ≤ ((listMax ((clouds.flatten).map Pt.y) : ℚ) : ℝ) :=
    Rat.cast_le.mpr (le_listMax (List.mem_map.mpr ⟨p, hflat, rfl⟩))
  have hz1 : ((p.z : ℚ) : ℝ) ≤ ((listMax ((clouds.flatten).map Pt.z) : ℚ) : ℝ) :=
    Rat.cast_le.mpr (le_listMax (List.mem_map.mpr ⟨p, hflat, rfl⟩))
  have hx2 : ((listMin ((clouds.flatten).map Pt.x) : ℚ) : ℝ) ≤ ((p.x : ℚ) : ℝ) :=
    Rat.cast_le.mpr (listMin_le (List.mem_map.mpr ⟨p, hflat, rfl⟩))
  have hy2 : ((listMin ((clouds.flatten).map Pt.y) : ℚ) : ℝ) ≤ ((p.y : ℚ) : ℝ) :=
    Rat.cast_le.mpr (listMin_le (List.mem_map.mpr ⟨p, hflat, rfl⟩))
  have hz2 : ((listMin ((clouds.flatten).map Pt.z) : ℚ) : ℝ) ≤ ((p.z : ℚ) : ℝ) :=
    Rat.cast_le.mpr (listMin_le (List.mem_map.mpr ⟨p, hflat, rfl⟩))
  unfold spatialExtent
  dsimp only
  refine ⟨⟨by linarith, by linarith, by linarith, by linarith, by linarith, by linarith⟩,
    by linarith, by linarith, by linarith, by linarith, by linarith, by linarith⟩

/-- Witness for C6 on a single two-atom cloud. -/
theorem c6_witness :
    ([[⟨0,0,0⟩, ⟨1,0,0⟩]] : List (List Pt)) ≠ [] ∧
    (([⟨0,0,0⟩, ⟨1,0,0⟩] : List Pt) ∈ ([[⟨0,0,0⟩, ⟨1,0,0⟩]] : List (List Pt))) ∧
    ((⟨1,0,0⟩ : Pt) ∈ ([⟨0,0,0⟩, ⟨1,0,0⟩] : List Pt)) ∧
    ((spatialExtent [[⟨0,0,0⟩, ⟨1,0,0⟩]]).xmin ≤ ((1 : ℚ) : ℝ) ∧
      (((1 : ℚ)) : ℝ) ≤ (spatialExtent [[⟨0,0,0⟩, ⟨1,0,0⟩]]).xmax) := by
  have h1 : ([[⟨0,0,0⟩, ⟨1,0,0⟩]] : List (List Pt)) ≠ [] := by simp
  have h2 : ([⟨0,0,0⟩, ⟨1,0,0⟩] : List Pt) ∈ ([[⟨0,0,0⟩, ⟨1,0,0⟩]] : List (List Pt)) := by
    simp
  have h3 : (⟨1,0,0⟩ : Pt) ∈ ([⟨0,0,0⟩, ⟨1,0,0⟩] : List Pt) := by simp
  have h4 := (c6_extent_contains [[⟨0,0,0⟩, ⟨1,0,0⟩]] [⟨0,0,0⟩, ⟨1,0,0⟩] ⟨1,0,0⟩
    h1 h2 h3).2
  exact ⟨h1, h2, h3, h4.1, h4.2.1⟩

/-- C8: for a fixed extent of positive volume, the knot radius of
`Grid.calc_radius` is strictly decreasing in the target knot count; for a
fixed target count it is strictly increasing in the volume; and an
unspecified count defaults to 5000. -/
theorem c8_radius_monotone (e e2 : Extent) (n n2 : ℕ)
    (hv : 0 < volume e) (hn : 0 < n) (hnn : n < n2) (hv2 : volume e < volume e2) :
    calcRadius e (some n2) < calcRadius e (some n) ∧
    calcRadius e (some n) < calcRadius e2 (some n) ∧
    calcRadius e none = calcRadius e (some 5000) := by
  have hc : (0 : ℝ) < 3 / (4 * Real.pi) * (Real.pi / (3 * Real.sqrt 2)) := by
    have hpi := Real.pi_pos
    have hs2 : (0 : ℝ) < Real.sqrt 2 := Real.sqrt_pos.mpr (by norm_num)
    positivity
  have hn' : (0 : ℝ) < (n : ℝ) := by exact_mod_cast hn
  have hn2'' : 0 < n2 := by omega
  have hn2' : (0 : ℝ) < (n2 : ℝ) := by exact_mod_cast hn2''
  have hnum : (0 : ℝ) < 3 / (4 * Real.pi) * (Real.pi / (3 * Real.sqrt 2)) * volume e :=
    mul_pos hc hv
  refine ⟨?_, ?_, rfl⟩
  · unfold calcRadius
    dsimp only [Option.getD]
    apply Real.rpow_lt_rpow ?hx ?hxy (by norm_num)
    case hx =>
      apply le_of_lt
      exact div_pos hnum hn2'
    case hxy =>
      apply div_lt_div_of_pos_left hnum hn'
      exact_mod_cast hnn
  · unfold calcRadius
    dsimp only [Option.getD]
    apply Real.rpow_lt_rpow ?hx2 ?hxy2 (by norm_num)
    case hx2 =>
      apply le_of_lt
      exact div_pos hnum hn'
    case hxy2 =>
      apply (div_lt_div_iff_of_pos_right hn').mpr
      exact mul_lt_mul_of_pos_left hv2 hc

/-- Witness for C8 on the unit box against a doubled box, counts 1 and 2. -/
theorem c8_witness :
    0 < volume ⟨1,1,1,0,0,0⟩ ∧
    volume (⟨1,1,1,0,0,0⟩ : Extent) < volume ⟨2,1,1,0,0,0⟩ ∧
    calcRadius ⟨1,1,1,0,0,0⟩ (some 2) < calcRadius ⟨1,1,1,0,0,0⟩ (some 1) ∧
    calcRadius ⟨1,1,1,0,0,0⟩ (some 1) < calcRadius ⟨2,1,1,0,0,0⟩ (some 1) := by
  have hv : (0 : ℝ) < volume ⟨1,1,1,0,0,0⟩ := by norm_num [volume]
  have hv2 : volume (⟨1,1,1,0,0,0⟩ : Extent) < volume ⟨2,1,1,0,0,0⟩ := by
    norm_num [volume]
  obtain ⟨h1, h2, _⟩ := c8_radius_monotone ⟨1,1,1,0,0,0⟩ ⟨2,1,1,0,0,0⟩ 1 2 hv
    (by norm_num) (by norm_num) hv2
  exact ⟨hv, hv2, h1, h2⟩

theorem genOffsets_mem {lo hi a : ℝ} (ha : 0 ≤ a) :
    ∀ {fuel : ℕ} {t0 t : ℝ}, t ∈ genOffsets lo hi a fuel t0 →
      t0 ≤ t ∧ lo + t ≤ hi := by
  intro fuel
  induction fuel with
  | zero =>
    intro t0 t h
    simp [genOffsets] at h
  | succ m ih =>
    intro t0 t h
    unfold genOffsets at h
    by_cases hc : lo + t0 ≤ hi
    · rw [if_pos hc] at h
      rcases List.mem_cons.mp h with rfl | h2
      · exact ⟨le_refl _, hc⟩
      · have h3 := ih h2
        constructor
        · linarith [h3.1]
        · exact h3.2
    · rw [if_neg hc] at h
      simp at h

theorem everySecond_sub {α : Type} :
    ∀ {l : List α} {x : α}, x ∈ everySecond l → x ∈ l
  | [], x, h => by simp [everySecond] at h
  | [a], x, h => by simpa [everySecond] using h
  | a :: b :: t, x, h => by
      rw [show everySecond (a :: b :: t) = a :: everySecond t from rfl] at h
      rcases List.mem_cons.mp h with rfl | h2
      · exact List.mem_cons_self _ _
      · exact List.mem_cons_of_mem _ (List.mem_cons_of_mem _ (everySecond_sub h2))

theorem sliceYs_sub {l : List ℝ} {b : ℕ} {x : ℝ} (h : x ∈ sliceYs l b) :
    x ∈ l := by
  unfold sliceYs at h
  have h1 := everySecond_sub h
  have h2 : x ∈ l.dropLast := List.drop_subset b l.dropLast h1
  exact List.dropLast_subset l h2

theorem snd_mem_of_mem_enum {α : Type} {l : List α} {q : ℕ × α}
    (h : q ∈ l.enum) : q.2 ∈ l := by
  obtain ⟨i, x⟩ := q
  rw [List.enum_eq_zip_range] at h
  exact (List.of_mem_zip h).2

/-- C7: every knot emitted by `Grid.make_grid` lies within the supplied
extent along each axis (each coordinate is at least the axis minimum and at
most the axis maximum), hence in particular within
`[min - radius, max + radius]` per axis. -/
theorem c7_knots_in_extent (e : Extent) (r : ℝ) (fuel : ℕ) (k : Knot)
    (hr : 0 < r) (hk : k ∈ makeGridKnots e r fuel) :
    (e.xmin ≤ k.x ∧ k.x ≤ e.xmax ∧ e.ymin ≤ k.y ∧ k.y ≤ e.ymax ∧
     e.zmin ≤ k.z ∧ k.z ≤ e.zmax) ∧
    (e.xmin - r ≤ k.x ∧ k.x ≤ e.xmax + r ∧ e.ymin - r ≤ k.y ∧ k.y ≤ e.ymax + r ∧
     e.zmin - r ≤ k.z ∧ k.z ≤ e.zmax + r) := by
  have ha : 0 ≤ Real.sqrt 2 * r :=
    mul_nonneg (Real.sqrt_nonneg 2) (le_of_lt hr)
  simp only [makeGridKnots] at hk
  obtain ⟨iz, hiz, hk2⟩ := List.mem_flatMap.mp hk
  obtain ⟨jx, hjx, hk3⟩ := List.mem_flatMap.mp hk2
  obtain ⟨y, hy, hk4⟩ := List.mem_map.mp hk3
  have hymem : y ∈ genOffsets e.ymin e.ymax (Real.sqrt 2 * r) fuel 0 := by
    split_ifs at hy <;> exact sliceYs_sub hy
  have hz := genOffsets_mem ha (snd_mem_of_mem_enum hiz)
  have hx := genOffsets_mem ha (snd_mem_of_mem_enum hjx)
  have hyb := genOffsets_mem ha hymem
  rw [← hk4]
  dsimp only
  constructor
  · refine ⟨by linarith [hx.1], by linarith [hx.2], by linarith [hyb.1],
      by linarith [hyb.2], by linarith [hz.1], by linarith [hz.2]⟩
  · refine ⟨by linarith [hx.1], by linarith [hx.2], by linarith [hyb.1],
      by linarith [hyb.2], by linarith [hz.1], by linarith [hz.2]⟩

/-- Witness for C7: the lattice over the box [0,2]^3 with radius sqrt 2
(hence spacing 2) contains the knot (0,0,0,0), which lies in the box. -/
theorem c7_witness :
    0 < Real.sqrt 2 ∧
    (⟨0,0,0,0⟩ : Knot) ∈ makeGridKnots ⟨2,2,2,0,0,0⟩ (Real.sqrt 2) 2 ∧
    (Extent.xmin ⟨2,2,2,0,0,0⟩ ≤ Knot.x ⟨0,0,0,0⟩ ∧
      Knot.x ⟨0,0,0,0⟩ ≤ Extent.xmax ⟨2,2,2,0,0,0⟩) := by
  have hr : 0 < Real.sqrt 2 := Real.sqrt_pos.mpr (by norm_num)
  have hk : (⟨0,0,0,0⟩ : Knot) ∈ makeGridKnots ⟨2,2,2,0,0,0⟩ (Real.sqrt 2) 2 := by
    have h2 : Real.sqrt 2 * Real.sqrt 2 = 2 := Real.mul_self_sqrt (by norm_num)
    simp only [makeGridKnots, h2]
    norm_num [genOffsets, sliceYs, everySecond, List.enum, List.enumFrom]
  have hcon := c7_knots_in_extent ⟨2,2,2,0,0,0⟩ (Real.sqrt 2) 2 ⟨0,0,0,0⟩ hr hk
  exact ⟨hr, hk, hcon.1.1, hcon.1.2.1⟩

theorem occAtoms_fst_mono (f : ℝ) (g : ℝ × ℝ × ℝ) :
    ∀ (l : List Pt) (acc : ℝ × ℕ), acc.1 ≤ (occAtoms f g l acc).1 := by
  intro l
  induction l with
  | nil => intro acc; exact le_refl _
  | cons p rest ih =>
    intro acc
    simp only [occAtoms]
    by_cases hc : max (1 - knotSqDist p g / (f / 2)) 0 ≠ 0
    · rw [if_pos hc]
      have h1 := ih (acc.1 + max (1 - knotSqDist p g / (f / 2)) 0, acc.2 + 1)
      have h2 : (0 : ℝ) ≤ max (1 - knotSqDist p g / (f / 2)) 0 := le_max_right _ _
      dsimp only at h1
      linarith
    · rw [if_neg hc]
      exact ih acc

theorem occAtoms_far (f : ℝ) (g : ℝ × ℝ × ℝ) (hf : 0 < f) :
    ∀ (l : List Pt) (acc : ℝ × ℕ),
      (∀ p ∈ l, f / 2 ≤ knotSqDist p g) → occAtoms f g l acc = acc := by
  intro l
  induction l with
  | nil => intro acc _; rfl
  | cons p rest ih =>
    intro acc hfar
    have hd : f / 2 ≤ knotSqDist p g := hfar p (List.mem_cons_self _ _)
    have hadd : max (1 - knotSqDist p g / (f / 2)) 0 = 0 := by
      apply max_eq_right
      have hf2 : (0 : ℝ) < f / 2 := by linarith
      have h1 : (1 : ℝ) ≤ knotSqDist p g / (f / 2) :=
        (le_div_iff₀ hf2).mpr (by linarith)
      linarith
    simp only [occAtoms, hadd]
    rw [if_neg (by simp)]
    exact ih acc (fun q hq => hfar q (List.mem_cons_of_mem _ hq))

theorem occModels_fst_mono (g : ℝ × ℝ × ℝ) :
    ∀ (ms : List (List Pt)) (acc : ℝ × ℕ), acc.1 ≤ (occModels g ms acc).1 := by
  intro ms
  induction ms with
  | nil => intro acc; exact le_refl _
  | cons m rest ih =>
    intro acc
    have h1 := occAtoms_fst_mono (fineness m) g m acc
    have h2 := ih (occAtoms (fineness m) g m acc)
    show acc.1 ≤ (occModels g rest (occAtoms (fineness m) g m acc)).1
    exact le_trans h1 h2

theorem occModels_far (g : ℝ × ℝ × ℝ) :
    ∀ (ms : List (List Pt)) (acc : ℝ × ℕ),
      (∀ m ∈ ms, 0 < fineness m) →
      (∀ m ∈ ms, ∀ p ∈ m, fineness m / 2 ≤ knotSqDist p g) →
      occModels g ms acc = acc := by
  intro ms
  induction ms with
  | nil => intro acc _ _; rfl
  | cons m rest ih =>
    intro acc hpos hfar
    show occModels g rest (occAtoms (fineness m) g m acc) = acc
    rw [occAtoms_far (fineness m) g (hpos m (List.mem_cons_self _ _)) m acc
      (hfar m (List.mem_cons_self _ _))]
    exact ih acc (fun x hx => hpos x (List.mem_cons_of_mem _ hx))
      (fun x hx => hfar x (List.mem_cons_of_mem _ hx))

theorem finenessSq_unitPair : finenessSq [⟨0,0,0⟩, ⟨1,0,0⟩] = 1 := by
  norm_num [finenessSq, colMin, entryD, dMax, allSqDists, sqDist,
    listMin, listMax, List.range_succ]

theorem fineness_unitPair : fineness [⟨0,0,0⟩, ⟨1,0,0⟩] = 1 := by
  unfold fineness
  rw [finenessSq_unitPair]
  norm_num

theorem maxFineness_unitPair : maxFineness [[⟨0,0,0⟩, ⟨1,0,0⟩]] = 1 := by
  unfold maxFineness
  simp only [List.map_cons, List.map_nil, listMax]
  exact fineness_unitPair

/-- C3 counterexample: for the single model (0,0,0),(1,0,0), of fineness 1,
and the knot (-3/5,0,0), the knot's Euclidean distance to every atom (3/5
and 8/5) exceeds half the maximum model fineness (1/2), yet the occupancy
is 7/25 and the contribution count 1: `calc_occupancy` compares the
squared distance against `f/2`, so its support reaches distance
sqrt(f/2), which exceeds f/2 whenever f < 2. -/
theorem c3_counterexample :
    (∀ m ∈ ([[⟨0,0,0⟩, ⟨1,0,0⟩]] : List (List Pt)), ∀ p ∈ m,
      maxFineness [[⟨0,0,0⟩, ⟨1,0,0⟩]] / 2
        < Real.sqrt (knotSqDist p ((-3/5 : ℝ), 0, 0))) ∧
    (calcOccupancy [[⟨0,0,0⟩, ⟨1,0,0⟩]] ((-3/5 : ℝ), 0, 0)).1 ≠ 0 := by
  constructor
  · intro m hm p hp
    rw [maxFineness_unitPair]
    have hm1 : m = [⟨0,0,0⟩, ⟨1,0,0⟩] := by simpa using hm
    subst hm1
    rcases List.mem_cons.mp hp with rfl | hp2
    · have hd : knotSqDist ⟨0,0,0⟩ ((-3/5 : ℝ), 0, 0) = 9/25 := by
        norm_num [knotSqDist]
      rw [hd, show (9/25 : ℝ) = (3/5)^2 by norm_num,
        Real.sqrt_sq (by norm_num : (0:ℝ) ≤ 3/5)]
      norm_num
    · have hp3 : p = ⟨1,0,0⟩ := by simpa using hp2
      subst hp3
      have hd : knotSqDist ⟨1,0,0⟩ ((-3/5 : ℝ), 0, 0) = 64/25 := by
        norm_num [knotSqDist]
      rw [hd, show (64/25 : ℝ) = (8/5)^2 by norm_num,
        Real.sqrt_sq (by norm_num : (0:ℝ) ≤ 8/5)]
      norm_num
  · have hocc : calcOccupancy [[⟨0,0,0⟩, ⟨1,0,0⟩]] ((-3/5 : ℝ), 0, 0)
        = (7/25, 1) := by
      simp only [calcOccupancy, occModels, occAtoms, fineness_unitPair, knotSqDist]
      norm_num [max_def]
    rw [hocc]
    norm_num

/-- C3 amended: for every knot and every collection of models of positive
fineness, the occupancy is nonnegative (the contribution count is a
natural number, nonnegative by type), and both are exactly zero whenever
the knot's squared Euclidean distance to every atom of every model exceeds
half the maximum model fineness — the code divides the squared distance by
`f/2`, so the cutoff is at squared distance `f/2`, not at Euclidean
distance `f/2`. -/
theorem c3_occupancy_props (models : List (List Pt)) (g : ℝ × ℝ × ℝ)
    (hpos : ∀ m ∈ models, 0 < fineness m) :
    0 ≤ (calcOccupancy models g).1 ∧
    ((∀ m ∈ models, ∀ p ∈ m, maxFineness models / 2 < knotSqDist p g) →
      (calcOccupancy models g).1 = 0 ∧ (calcOccupancy models g).2 = 0) := by
  constructor
  · have h := occModels_fst_mono g models (0, 0)
    simpa [calcOccupancy] using h
  · intro hfar
    have hfar2 : ∀ m ∈ models, ∀ p ∈ m, fineness m / 2 ≤ knotSqDist p g := by
      intro m hm p hp
      have h1 : fineness m ≤ maxFineness models := by
        unfold maxFineness
        exact le_listMax (List.mem_map.mpr ⟨m, hm, rfl⟩)
      have h2 := hfar m hm p hp
      linarith
    unfold calcOccupancy
    rw [occModels_far g models (0, 0) hpos hfar2]
    exact ⟨rfl, rfl⟩

/-- Witness for the amended C3: the single model (0,0,0),(1,0,0) and the
knot (10,0,0), whose squared distances 100 and 81 exceed 1/2. -/
theorem c3_witness :
    (∀ m ∈ ([[⟨0,0,0⟩, ⟨1,0,0⟩]] : List (List Pt)), 0 < fineness m) ∧
    (∀ m ∈ ([[⟨0,0,0⟩, ⟨1,0,0⟩]] : List (List Pt)), ∀ p ∈ m,
      maxFineness [[⟨0,0,0⟩, ⟨1,0,0⟩]] / 2 < knotSqDist p ((10 : ℝ), 0, 0)) ∧
    (calcOccupancy [[⟨0,0,0⟩, ⟨1,0,0⟩]] ((10 : ℝ), 0, 0)).1 = 0 ∧
    (calcOccupancy [[⟨0,0,0⟩, ⟨1,0,0⟩]] ((10 : ℝ), 0, 0)).2 = 0 := by
  have hpos : ∀ m ∈ ([[⟨0,0,0⟩, ⟨1,0,0⟩]] : List (List Pt)), 0 < fineness m := by
    intro m hm
    have hm1 : m = [⟨0,0,0⟩, ⟨1,0,0⟩] := by simpa using hm
    subst hm1
    rw [fineness_unitPair]
    norm_num
  have hfar : ∀ m ∈ ([[⟨0,0,0⟩, ⟨1,0,0⟩]] : List (List Pt)), ∀ p ∈ m,
      maxFineness [[⟨0,0,0⟩, ⟨1,0,0⟩]] / 2 < knotSqDist p ((10 : ℝ), 0, 0) := by
    intro m hm p hp
    have hm1 : m = [⟨0,0,0⟩, ⟨1,0,0⟩] := by simpa using hm
    subst hm1
    rw [maxFineness_unitPair]
    rcases List.mem_cons.mp hp with rfl | hp2
    · norm_num [knotSqDist]
    · have hp3 : p = ⟨1,0,0⟩ := by simpa using hp2
      subst hp3
      norm_num [knotSqDist]
  have h := c3_occupancy_props [[⟨0,0,0⟩, ⟨1,0,0⟩]] ((10 : ℝ), 0, 0) hpos
  exact ⟨hpos, hfar, (h.2 hfar).1, (h.2 hfar).2⟩
